import Mathlib

/-!
Verification of the task-scoring core (`TaskScorer` in `backend/tasks/scoring.py`).

The scoring module is shallowly embedded below.  Python floats are modelled by
real numbers (`ℝ`); caller-supplied decimal inputs such as `estimated_hours`
and the strategy weights are modelled by rationals (`ℚ`), and calendar dates by
integers counting days, with the wall-clock date `today` passed explicitly as a
parameter (the source reads `date.today()`; every claim fixes a single current
date).  `x ** 1.5` and `x ** 1.8` are the real powers, `math.log` is the real
logarithm, `round(x, 2)` is rounding to the decimal grid (the half-to-even tie
rule of Python differs from `round` here only on exact ties, which no claim
touches).  Python's stable `list.sort(key=..., reverse=True)` is modelled by a
stable descending insertion sort: a stable sort is extensionally unique, so any
stable realisation is faithful.
-/

namespace TaskScoring

/-- A task record as consumed by the scorer: `task_id` is the optional integer
id, `due_date` a calendar date (days), `estimated_hours` the positive effort
estimate, `importance` an integer 1..10, `dependencies` the ids this task
depends on. -/
structure Task where
  task_id : Option Int := none
  title : String := ""
  due_date : Int := 0
  estimated_hours : ℚ := 1
  importance : Int := 1
  dependencies : List Int := []
deriving DecidableEq

/-- A strategy's weight vector over the four factors. -/
structure Weights where
  urgency : ℚ
  importance : ℚ
  effort : ℚ
  dependencies : ℚ
deriving DecidableEq

/-- `TaskScorer.DEFAULT_WEIGHTS`. -/
def DEFAULT_WEIGHTS : Weights := ⟨0.35, 0.35, 0.15, 0.15⟩

/-- `TaskScorer.STRATEGIES`, in source order. -/
def STRATEGIES : List (String × Weights) :=
  [("smart_balance", DEFAULT_WEIGHTS),
   ("fastest_wins", ⟨0.20, 0.20, 0.50, 0.10⟩),
   ("high_impact", ⟨0.15, 0.60, 0.05, 0.20⟩),
   ("deadline_driven", ⟨0.60, 0.20, 0.05, 0.15⟩)]

/-- The scorer object: the selected weights and the strategy name. -/
structure TaskScorer where
  weights : Weights
  strategy : String
deriving DecidableEq

/-- The message of the `ValueError` raised on an unknown strategy name:
`f"Invalid strategy. Choose from: {list(self.STRATEGIES.keys())}"`. -/
def invalidStrategyMessage : String :=
  "Invalid strategy. Choose from: ['smart_balance', 'fastest_wins', 'high_impact', 'deadline_driven']"

/-- `TaskScorer.__init__`: raising `ValueError` is modelled by `Except.error`. -/
def TaskScorer.init (strategy : String) : Except String TaskScorer :=
  match STRATEGIES.lookup strategy with
  | none => .error invalidStrategyMessage
  | some w => .ok ⟨w, strategy⟩

/-- `calculate_urgency_score`, with `days_until_due = due_date - today`. -/
noncomputable def calculate_urgency_score (today : Int) (due_date : Int) : ℝ :=
  let days_until_due : Int := due_date - today
  if days_until_due < 0 then
    min 100 (95 + ((days_until_due.natAbs : ℝ) * 2))
  else if days_until_due = 0 then 95
  else if days_until_due ≤ 7 then 90 - ((days_until_due : ℝ) * 3)
  else if days_until_due ≤ 30 then 65 - (((days_until_due : ℝ) - 7) * 1.2)
  else max 10 (35 / (1 + ((days_until_due : ℝ) - 30) / 30))

/-- `calculate_importance_score`: `(importance ** 1.8) / (10 ** 1.8) * 100`. -/
noncomputable def calculate_importance_score (importance : Int) : ℝ :=
  ((importance : ℝ) ^ (1.8 : ℝ)) / ((10 : ℝ) ^ (1.8 : ℝ)) * 100

/-- `calculate_effort_score`. -/
noncomputable def calculate_effort_score (estimated_hours : ℚ) : ℝ :=
  let h : ℝ := (estimated_hours : ℝ)
  if estimated_hours ≤ 1 then 100 - h * 10
  else if estimated_hours ≤ 4 then 90 - (h - 1) * 6.67
  else if estimated_hours ≤ 8 then 70 - (h - 4) * 5
  else if estimated_hours ≤ 16 then 50 - (h - 8) * 2.5
  else max 10 (30 - Real.log (h - 15) * 5)

/-- The number of tasks whose `dependencies` contain `task_id`
(the loop counting `blocked_count` in `calculate_dependency_score`). -/
def blockedCount (task_id : Int) (all_tasks : List Task) : Nat :=
  (all_tasks.filter (fun t => task_id ∈ t.dependencies)).length

/-- `calculate_dependency_score`; `blocked_count ** 1.5` is the real power. -/
noncomputable def calculate_dependency_score (task_id : Int) (all_tasks : List Task) : ℝ :=
  let blocked_count := blockedCount task_id all_tasks
  if blocked_count = 0 then 20
  else min 100 (20 + ((blocked_count : ℝ) * 25) - (blocked_count : ℝ) ^ (1.5 : ℝ))

/-! ### Cycle detection

`detect_circular_dependencies`: the mutable sets `visited` / `rec_stack` and
the accumulated `cycles` list become an explicit `DfsState`; the Python dict
`graph` becomes an association list in insertion order with in-place updates
(`insertOrReplace`); recursion is driven by a fuel argument large enough to
never run out (each recursive call targets a not-yet-visited node, so at most
`tasks.length` nested calls happen). -/

structure DfsState where
  visited : List Int
  recStack : List Int
  cycles : List (List Int)
deriving DecidableEq

/-- Python dict assignment `graph[k] = v`: update in place, else append. -/
def insertOrReplace (g : List (Int × List Int)) (k : Int) (v : List Int) :
    List (Int × List Int) :=
  match g with
  | [] => [(k, v)]
  | p :: rest => if p.1 = k then (k, v) :: rest else p :: insertOrReplace rest k v

/-- The adjacency dict: tasks without an id are skipped. -/
def buildGraph (tasks : List Task) : List (Int × List Int) :=
  tasks.foldl (fun g t =>
    match t.task_id with
    | none => g
    | some i => insertOrReplace g i t.dependencies) []

/-- The `task_ids` set (membership is what matters). -/
def taskIdsOf (tasks : List Task) : List Int :=
  tasks.filterMap (·.task_id)

/-- `graph.get(node, [])`. -/
def lookupDeps (graph : List (Int × List Int)) (node : Int) : List Int :=
  (graph.lookup node).getD []

/-- `cycle_start = path.index(neighbor); cycle = path[cycle_start:] + [neighbor]`. -/
def extractCycle (path : List Int) (neighbor : Int) : List Int :=
  path.drop (path.indexOf neighbor) ++ [neighbor]

/-- One iteration of the `for neighbor in graph.get(node, [])` body. -/
def dfsStep (tids : List Int) (go : Int → List Int → DfsState → DfsState)
    (path : List Int) (s : DfsState) (neighbor : Int) : DfsState :=
  if neighbor ∉ tids then s
  else if neighbor ∉ s.visited then go neighbor path s
  else if neighbor ∈ s.recStack then
    { s with cycles := s.cycles ++ [extractCycle path neighbor] }
  else s

/-- The neighbor loop; `go` is the recursive call at one fuel less. -/
def dfsLoop (tids : List Int) (go : Int → List Int → DfsState → DfsState)
    (path : List Int) : List Int → DfsState → DfsState
  | [], s => s
  | n :: ns, s => dfsLoop tids go path ns (dfsStep tids go path s n)

/-- The recursive `dfs(node, path)`: mark visited, push on the recursion
stack, extend the (branch-local) path, process neighbors, pop the stack. -/
def dfsAux (graph : List (Int × List Int)) (tids : List Int) :
    Nat → Int → List Int → DfsState → DfsState
  | 0, _, _, s => s
  | fuel + 1, node, path, s =>
    let s1 : DfsState := ⟨node :: s.visited, node :: s.recStack, s.cycles⟩
    let path1 := path ++ [node]
    let s2 := dfsLoop tids (dfsAux graph tids fuel) path1 (lookupDeps graph node) s1
    ⟨s2.visited, s2.recStack.erase node, s2.cycles⟩

/-- `detect_circular_dependencies`. -/
def detect_circular_dependencies (tasks : List Task) : List (List Int) :=
  let graph := buildGraph tasks
  let tids := taskIdsOf tasks
  let fuel := tasks.length + 1
  (graph.foldl (fun s p =>
      if p.1 ∉ s.visited then dfsAux graph tids fuel p.1 [] s else s)
    ⟨[], [], []⟩).cycles

/-! ### Priority composition -/

structure ComponentScores where
  urgency : ℝ
  importance : ℝ
  effort : ℝ
  dependencies : ℝ

structure ScoreResult where
  priority_score : ℝ
  priority_level : String
  explanation : String
  component_scores : ComponentScores

/-- Python `round(x, 2)`. -/
noncomputable def roundTwo (x : ℝ) : ℝ := ((round (x * 100) : ℤ) : ℝ) / 100

/-- `_generate_explanation`; here `importance`/`dependencies` are the 0-100
component scores, as in the source.  (Float formatting inside the strings is
not modelled exactly; no claim inspects the text.) -/
noncomputable def _generate_explanation (today : Int)
    (urgency importance effort dependencies : ℝ)
    (due_date : Int) (estimated_hours : ℚ) : String :=
  let days_until_due := due_date - today
  let overdueDays := days_until_due.natAbs
  let hoursText := toString estimated_hours
  let explanations : List String :=
    (if days_until_due < 0 then [s!"⚠️ OVERDUE by {overdueDays} days"]
     else if days_until_due = 0 then ["⚠️ Due TODAY"]
     else if days_until_due ≤ 3 then [s!"Due in {days_until_due} days"]
     else if days_until_due ≤ 7 then ["Due this week"]
     else [])
    ++ (if (80 : ℝ) ≤ importance then ["High importance"]
        else if (60 : ℝ) ≤ importance then ["Medium importance"] else [])
    ++ (if estimated_hours ≤ 1 then ["Quick win (< 1 hour)"]
        else if estimated_hours ≤ 4 then [s!"Short task ({hoursText}h)"] else [])
    ++ (if (70 : ℝ) ≤ dependencies then ["Blocks multiple tasks"]
        else if (45 : ℝ) ≤ dependencies then ["Blocks other tasks"] else [])
  if explanations.isEmpty then "Standard priority task"
  else String.intercalate " | " explanations

/-- `calculate_priority`.  The dependency component follows the source's
truthiness test `if task_id`: both a missing id and id `0` fall back to the
flat `20`. -/
noncomputable def calculate_priority (today : Int) (w : Weights) (task : Task)
    (all_tasks : List Task) : ScoreResult :=
  let urgency_score := calculate_urgency_score today task.due_date
  let importance_score := calculate_importance_score task.importance
  let effort_score := calculate_effort_score task.estimated_hours
  let dependency_score :=
    match task.task_id with
    | some i => if i ≠ 0 then calculate_dependency_score i all_tasks else 20
    | none => 20
  let priority_score :=
    urgency_score * (w.urgency : ℝ) + importance_score * (w.importance : ℝ) +
      effort_score * (w.effort : ℝ) + dependency_score * (w.dependencies : ℝ)
  let priority_level :=
    if (80 : ℝ) ≤ priority_score then "High"
    else if (60 : ℝ) ≤ priority_score then "Medium"
    else "Low"
  { priority_score := roundTwo priority_score
    priority_level := priority_level
    explanation := _generate_explanation today urgency_score importance_score
      effort_score dependency_score task.due_date task.estimated_hours
    component_scores :=
      { urgency := roundTwo urgency_score
        importance := roundTwo importance_score
        effort := roundTwo effort_score
        dependencies := roundTwo dependency_score } }

/-- The merged dict `{**task, **score_data}` of `score_tasks`. -/
structure ScoredTask where
  task : Task
  result : ScoreResult

/-- Score one task of the batch. -/
noncomputable def scoreOne (today : Int) (w : Weights) (all_tasks : List Task)
    (task : Task) : ScoredTask :=
  ⟨task, calculate_priority today w task all_tasks⟩

/-- The sort key `x['priority_score']` (the rounded score). -/
noncomputable def sortKey (st : ScoredTask) : ℝ := st.result.priority_score

/-- Insert `x` before the first element with a strictly smaller key: elements
with equal key that are already in the list (they came later in the input,
since `sortDesc` folds from the right) stay in front of nothing -- `x` goes
first, which is exactly stable descending order. -/
noncomputable def insertDesc (x : ScoredTask) : List ScoredTask → List ScoredTask
  | [] => [x]
  | y :: ys => if sortKey y ≤ sortKey x then x :: y :: ys else y :: insertDesc x ys

/-- Stable descending sort by `priority_score` (extensionally equal to
Python's stable `sort(key=..., reverse=True)`). -/
noncomputable def sortDesc : List ScoredTask → List ScoredTask
  | [] => []
  | x :: xs => insertDesc x (sortDesc xs)

/-- `score_tasks`: score every task against the whole batch, then sort. -/
noncomputable def score_tasks (today : Int) (w : Weights) (tasks : List Task) :
    List ScoredTask :=
  sortDesc (tasks.map (scoreOne today w tasks))

/-! ### Top suggestions -/

structure Suggestion where
  task_id : Option Int
  title : String
  due_date : Int
  estimated_hours : ℚ
  importance : Int
  priority_score : ℝ
  reason : String
  action_items : List String

/-- `_generate_action_items`. -/
noncomputable def _generate_action_items (today : Int) (st : ScoredTask)
    (rank : Nat) : List String :=
  let base : List String :=
    if rank = 1 then ["🎯 Start this task immediately"]
    else [s!"📋 Schedule this as task #{rank} today"]
  let effortItems : List String :=
    if st.task.estimated_hours ≤ 1 then ["⚡ Quick win - can complete in one sitting"]
    else if st.task.estimated_hours ≤ 4 then ["🕐 Block time in your calendar"]
    else ["📅 Break down into smaller subtasks"]
  let days_until_due := st.task.due_date - today
  let urgencyItems : List String :=
    if days_until_due < 0 then ["🚨 Communicate delay or adjust scope"]
    else if days_until_due ≤ 1 then ["⏰ Must complete today"]
    else []
  let depItems : List String :=
    if (70 : ℝ) ≤ st.result.component_scores.dependencies then
      ["🔓 Completing this will unblock other tasks"]
    else []
  base ++ effortItems ++ urgencyItems ++ depItems

/-- Python `enumerate(top_tasks, 1)`. -/
def enumerateFrom {α : Type _} (i : Nat) : List α → List (Nat × α)
  | [] => []
  | x :: xs => (i, x) :: enumerateFrom (i + 1) xs

/-- One suggestion entry of `get_top_suggestions`. -/
noncomputable def mkSuggestion (today : Int) (p : Nat × ScoredTask) : Suggestion :=
  { task_id := p.2.task.task_id
    title := p.2.task.title
    due_date := p.2.task.due_date
    estimated_hours := p.2.task.estimated_hours
    importance := p.2.task.importance
    priority_score := p.2.result.priority_score
    reason := p.2.result.explanation
    action_items := _generate_action_items today p.2 p.1 }

/-- `get_top_suggestions`. -/
noncomputable def get_top_suggestions (today : Int) (w : Weights)
    (tasks : List Task) (limit : Nat) : List Suggestion :=
  (enumerateFrom 1 ((score_tasks today w tasks).take limit)).map (mkSuggestion today)

/-! ### Claim-side (specification) definitions -/

/-- The dependency graph of the claims: an edge `u → v` whenever both ids are
present among the input tasks and `v` occurs in the dependency list the graph
records for `u`. -/
def Edge (tasks : List Task) (u v : Int) : Prop :=
  u ∈ taskIdsOf tasks ∧ v ∈ taskIdsOf tasks ∧ v ∈ lookupDeps (buildGraph tasks) u

/-- The restricted dependency graph contains a (directed, nonempty) cycle. -/
def HasCycle (tasks : List Task) : Prop :=
  ∃ u, Relation.TransGen (Edge tasks) u u

/-- The piecewise urgency formula exactly as the claim states it, as a
function of `d = due_date - today`. -/
noncomputable def urgencySpec (d : Int) : ℝ :=
  if d < 0 then min 100 (95 + 2 * (d.natAbs : ℝ))
  else if d = 0 then 95
  else if 1 ≤ d ∧ d ≤ 7 then 90 - 3 * (d : ℝ)
  else if 8 ≤ d ∧ d ≤ 30 then 65 - 1.2 * ((d : ℝ) - 7)
  else max 10 (35 / (1 + ((d : ℝ) - 30) / 30))

/-! ### Helper lemmas -/

lemma le_of_sq_le_sq {a b : ℝ} (ha : 0 ≤ a) (hb : 0 ≤ b) (h : a ^ 2 ≤ b ^ 2) :
    a ≤ b := by
  have h' := Real.sqrt_le_sqrt h
  rwa [Real.sqrt_sq ha, Real.sqrt_sq hb] at h'

/-- `x ** 1.5` is `x * sqrt x` on nonnegative reals. -/
lemma rpow_three_halves (x : ℝ) (hx : 0 ≤ x) :
    x ^ (1.5 : ℝ) = x * Real.sqrt x := by
  rcases eq_or_lt_of_le hx with h | h
  · rw [← h, Real.zero_rpow (by norm_num), Real.sqrt_zero, mul_zero]
  · rw [show (1.5 : ℝ) = 1 + 1 / 2 by norm_num, Real.rpow_add h, Real.rpow_one,
      Real.sqrt_eq_rpow]

/-! ### C1 -/

/-- C1: for every fixed current date and due date, `calculate_urgency_score`
equals the claimed piecewise formula in `d = due_date - today`, and the result
always lies in `[10, 100]`. -/
theorem urgency_score_spec_and_bounds (today due_date : Int) :
    calculate_urgency_score today due_date = urgencySpec (due_date - today) ∧
    10 ≤ calculate_urgency_score today due_date ∧
    calculate_urgency_score today due_date ≤ 100 := by
  simp only [calculate_urgency_score, urgencySpec]
  set d : Int := due_date - today with hd
  have habs : (0 : ℝ) ≤ (d.natAbs : ℝ) := by positivity
  refine ⟨?_, ?_, ?_⟩
  · split_ifs <;> try omega
    · rw [mul_comm]
    · rfl
    · ring
    · ring
    · rfl
  · split_ifs with h1 h2 h3 h4
    · exact le_min (by norm_num) (by linarith)
    · norm_num
    · have hc1 : (1 : ℝ) ≤ (d : ℝ) := by exact_mod_cast (by omega : (1 : Int) ≤ d)
      have hc7 : (d : ℝ) ≤ 7 := by exact_mod_cast h3
      linarith
    · have hc30 : (d : ℝ) ≤ 30 := by exact_mod_cast h4
      linarith
    · exact le_max_left _ _
  · split_ifs with h1 h2 h3 h4
    · exact min_le_left _ _
    · norm_num
    · have hc1 : (1 : ℝ) ≤ (d : ℝ) := by exact_mod_cast (by omega : (1 : Int) ≤ d)
      linarith
    · have hc8 : (8 : ℝ) ≤ (d : ℝ) := by exact_mod_cast (by omega : (8 : Int) ≤ d)
      linarith
    · have hc31 : (31 : ℝ) ≤ (d : ℝ) := by exact_mod_cast (by omega : (31 : Int) ≤ d)
      have hden0 : (0 : ℝ) < 1 + ((d : ℝ) - 30) / 30 := by linarith
      refine max_le (by norm_num) ?_
      rw [div_le_iff₀ hden0]
      nlinarith

/-! ### C7 -/

/-- C7: the importance score is the claimed power formula, strictly increasing
on 1..10, exactly 100 at importance 10, and convex in the sense
`score 10 - score 5 > score 5 - score 2`. -/
theorem importance_score_spec :
    (∀ i : Int, calculate_importance_score i =
      ((i : ℝ) ^ (1.8 : ℝ)) / ((10 : ℝ) ^ (1.8 : ℝ)) * 100) ∧
    (∀ i j : Int, 1 ≤ i → i < j → j ≤ 10 →
      calculate_importance_score i < calculate_importance_score j) ∧
    calculate_importance_score 10 = 100 ∧
    calculate_importance_score 10 - calculate_importance_score 5 >
      calculate_importance_score 5 - calculate_importance_score 2 := by
  have hden : (0 : ℝ) < (10 : ℝ) ^ (1.8 : ℝ) :=
    Real.rpow_pos_of_pos (by norm_num) _
  refine ⟨fun i => rfl, ?_, ?_, ?_⟩
  · intro i j hi hij hj
    have h0 : (0 : ℝ) ≤ (i : ℝ) := by exact_mod_cast (by omega : (0 : Int) ≤ i)
    have hlt : (i : ℝ) < (j : ℝ) := by exact_mod_cast hij
    have hpow := Real.rpow_lt_rpow h0 hlt (by norm_num : (0 : ℝ) < 1.8)
    have := div_lt_div_of_pos_right hpow hden
    simp only [calculate_importance_score]
    nlinarith
  · simp only [calculate_importance_score]
    push_cast
    rw [div_self (ne_of_gt hden)]
    norm_num
  · simp only [calculate_importance_score]
    push_cast
    have h2 : (0 : ℝ) < (2 : ℝ) ^ (1.8 : ℝ) := Real.rpow_pos_of_pos (by norm_num) _
    have h5 : (0 : ℝ) < (5 : ℝ) ^ (1.8 : ℝ) := Real.rpow_pos_of_pos (by norm_num) _
    have hmul : (10 : ℝ) ^ (1.8 : ℝ) = (2 : ℝ) ^ (1.8 : ℝ) * (5 : ℝ) ^ (1.8 : ℝ) := by
      rw [← Real.mul_rpow (by norm_num) (by norm_num)]; norm_num
    have h2gt : (2 : ℝ) < (2 : ℝ) ^ (1.8 : ℝ) := by
      have h := Real.rpow_lt_rpow_of_exponent_lt
        (x := (2 : ℝ)) (by norm_num) (by norm_num : (1 : ℝ) < 1.8)
      rwa [Real.rpow_one] at h
    have hkey : 2 * (5 : ℝ) ^ (1.8 : ℝ) < (10 : ℝ) ^ (1.8 : ℝ) := by nlinarith
    have hexp : ∀ z : ℝ, z / (10 : ℝ) ^ (1.8 : ℝ) * 100 =
        z * (100 / (10 : ℝ) ^ (1.8 : ℝ)) := fun z => by ring
    have hc : (0 : ℝ) < 100 / (10 : ℝ) ^ (1.8 : ℝ) := by positivity
    rw [hexp, hexp, hexp]
    nlinarith

/-- C7 witness: strict monotonicity instantiated at importance 2 < 3. -/
theorem importance_score_spec_witness :
    calculate_importance_score 2 < calculate_importance_score 3 :=
  importance_score_spec.2.1 2 3 (by norm_num) (by norm_num) (by norm_num)

/-! ### C8 -/

/-- C8: construction fails exactly on unknown strategy names, the error
message enumerates the valid names, and each valid name yields the fixed
weight tuple from the strategy table. -/
theorem scorer_construction_spec :
    (∀ s : String, (∃ e, TaskScorer.init s = .error e) ↔
      s ∉ ["smart_balance", "fastest_wins", "high_impact", "deadline_driven"]) ∧
    (∀ s e, TaskScorer.init s = .error e → e = invalidStrategyMessage) ∧
    (∀ n ∈ ["smart_balance", "fastest_wins", "high_impact", "deadline_driven"],
      ∃ pre suf, invalidStrategyMessage = pre ++ n ++ suf) ∧
    TaskScorer.init "smart_balance" = .ok ⟨⟨0.35, 0.35, 0.15, 0.15⟩, "smart_balance"⟩ ∧
    TaskScorer.init "fastest_wins" = .ok ⟨⟨0.20, 0.20, 0.50, 0.10⟩, "fastest_wins"⟩ ∧
    TaskScorer.init "high_impact" = .ok ⟨⟨0.15, 0.60, 0.05, 0.20⟩, "high_impact"⟩ ∧
    TaskScorer.init "deadline_driven" = .ok ⟨⟨0.60, 0.20, 0.05, 0.15⟩, "deadline_driven"⟩ := by
  refine ⟨?_, ?_, ?_, by rfl, by rfl, by rfl, by rfl⟩
  · intro s
    by_cases h1 : s = "smart_balance"
    · subst h1; simp [TaskScorer.init, STRATEGIES, List.lookup]
    · by_cases h2 : s = "fastest_wins"
      · subst h2; simp [TaskScorer.init, STRATEGIES, List.lookup]
      · by_cases h3 : s = "high_impact"
        · subst h3; simp [TaskScorer.init, STRATEGIES, List.lookup]
        · by_cases h4 : s = "deadline_driven"
          · subst h4; simp [TaskScorer.init, STRATEGIES, List.lookup]
          · have hlook : STRATEGIES.lookup s = none := by
              simp [STRATEGIES, List.lookup,
                beq_eq_false_iff_ne.mpr h1, beq_eq_false_iff_ne.mpr h2,
                beq_eq_false_iff_ne.mpr h3, beq_eq_false_iff_ne.mpr h4]
            simp [TaskScorer.init, hlook, h1, h2, h3, h4]
  · intro s e h
    simp only [TaskScorer.init] at h
    rcases hl : STRATEGIES.lookup s with _ | w <;> rw [hl] at h
    · injection h with h'
      exact h'.symm
    · exact absurd h (by simp)
  · intro n hn
    fin_cases hn
    · exact ⟨"Invalid strategy. Choose from: ['",
        "', 'fastest_wins', 'high_impact', 'deadline_driven']", rfl⟩
    · exact ⟨"Invalid strategy. Choose from: ['smart_balance', '",
        "', 'high_impact', 'deadline_driven']", rfl⟩
    · exact ⟨"Invalid strategy. Choose from: ['smart_balance', 'fastest_wins', '",
        "', 'deadline_driven']", rfl⟩
    · exact ⟨"Invalid strategy. Choose from: ['smart_balance', 'fastest_wins', 'high_impact', '",
        "']", rfl⟩

/-- C8 witness: the unknown name "bogus" is rejected. -/
theorem scorer_construction_spec_witness :
    ∃ e, TaskScorer.init "bogus" = .error e :=
  (scorer_construction_spec.1 "bogus").mpr (by decide)

/-! ### C4 -/

lemma blockedCount_replicate (t : Int) (n : Nat) (task : Task)
    (h : t ∈ task.dependencies) :
    blockedCount t (List.replicate n task) = n := by
  induction n with
  | zero => rfl
  | succ k ih =>
    simp only [blockedCount, List.replicate_succ, List.filter_cons,
      decide_eq_true h, if_true, List.length_cons] at *
    omega

/-- C4 counterexample: 627 tasks all depending on task 1 drive
`calculate_dependency_score` below 0, so the claimed codomain `[0, 100]`
fails. -/
theorem dependency_score_counterexample :
    calculate_dependency_score 1
      (List.replicate 627 { task_id := some 9, dependencies := [1] }) < 0 := by
  have hb : blockedCount 1
      (List.replicate 627 { task_id := some 9, dependencies := [1] }) = 627 :=
    blockedCount_replicate _ _ _ (by decide)
  simp only [calculate_dependency_score, hb]
  rw [if_neg (by norm_num), rpow_three_halves _ (by positivity)]
  push_cast
  have hs : (15695 / 627 : ℝ) < Real.sqrt 627 := by
    rw [Real.lt_sqrt (by positivity)]
    norm_num
  have h627 : (15695 : ℝ) < 627 * Real.sqrt 627 := by
    have hm := mul_lt_mul_of_pos_left hs (by norm_num : (0 : ℝ) < 627)
    calc (15695 : ℝ) = 627 * (15695 / 627) := by norm_num
    _ < 627 * Real.sqrt 627 := hm
  calc min 100 (20 + (627 : ℝ) * 25 - 627 * Real.sqrt 627)
      ≤ 20 + (627 : ℝ) * 25 - 627 * Real.sqrt 627 := min_le_right _ _
    _ < 0 := by linarith

/-- C4 (amended): the dependency score never exceeds 100, and it is
nonnegative whenever at most 626 tasks are blocked (at 627 blocked tasks the
`blocked_count ** 1.5` term drives it negative, see the counterexample). -/
theorem dependency_score_bounds (task_id : Int) (all_tasks : List Task) :
    calculate_dependency_score task_id all_tasks ≤ 100 ∧
    (blockedCount task_id all_tasks ≤ 626 →
      0 ≤ calculate_dependency_score task_id all_tasks) := by
  simp only [calculate_dependency_score]
  by_cases h0 : blockedCount task_id all_tasks = 0
  · simp only [h0, if_true]
    exact ⟨by norm_num, fun _ => by norm_num⟩
  · set n := blockedCount task_id all_tasks with hn
    simp only [h0, if_false]
    have hx0 : (0 : ℝ) ≤ (n : ℝ) := by positivity
    rw [rpow_three_halves _ hx0]
    refine ⟨min_le_left _ _, fun hle => ?_⟩
    have hx1 : (1 : ℝ) ≤ (n : ℝ) := by
      exact_mod_cast Nat.one_le_iff_ne_zero.mpr h0
    have hx626 : (n : ℝ) ≤ 626 := by exact_mod_cast hle
    have hsq := Real.sq_sqrt hx0
    have hkey : (n : ℝ) * Real.sqrt n ≤ 25 * (n : ℝ) + 20 := by
      refine le_of_sq_le_sq (by positivity) (by linarith) ?_
      have hpow : ((n : ℝ) * Real.sqrt n) ^ 2 = (n : ℝ) ^ 2 * (n : ℝ) := by
        rw [mul_pow, hsq]
      rw [hpow]
      have hc1 : (n : ℝ) ^ 2 * (n : ℝ) ≤ 626 * (n : ℝ) ^ 2 := by nlinarith
      have hc2 : (n : ℝ) ^ 2 ≤ 626 * (n : ℝ) := by nlinarith
      nlinarith
    refine le_min (by norm_num) (by linarith)

/-- C4 witness: the amended bound instantiated at a concrete empty batch. -/
theorem dependency_score_bounds_witness :
    0 ≤ calculate_dependency_score 5 [] :=
  (dependency_score_bounds 5 []).2 (by decide)

/-! ### C3 and C10 -/

/-- The dependency component actually used by `calculate_priority` as the
amended claim states it: the dedicated dependency score for a nonzero id,
the flat 20 for id 0 or for a task without an id. -/
noncomputable def dependencyComponentSpec (task : Task) (all_tasks : List Task) : ℝ :=
  match task.task_id with
  | some i => if i ≠ 0 then calculate_dependency_score i all_tasks else 20
  | none => 20

/-- The claim's weighted sum `Σ component_i * weight_i` of the four
component scores. -/
noncomputable def weightedSumSpec (today : Int) (w : Weights) (task : Task)
    (all_tasks : List Task) : ℝ :=
  calculate_urgency_score today task.due_date * (w.urgency : ℝ) +
    calculate_importance_score task.importance * (w.importance : ℝ) +
    calculate_effort_score task.estimated_hours * (w.effort : ℝ) +
    dependencyComponentSpec task all_tasks * (w.dependencies : ℝ)

lemma roundTwo_of_int (z : ℤ) : roundTwo (z : ℝ) = (z : ℝ) := by
  rw [roundTwo]
  have h : (z : ℝ) * 100 = ((z * 100 : ℤ) : ℝ) := by push_cast; ring
  rw [h, round_intCast]
  push_cast
  field_simp

lemma roundTwo_twenty : roundTwo 20 = 20 := by
  simpa using roundTwo_of_int 20

/-- C3 counterexample: a task that carries the id 0 while another task
depends on 0.  The claim demands the dependency component
`calculate_dependency_score 0 all_tasks = 44`, but `calculate_priority`
uses the flat 20 (Python truthiness of `task_id`). -/
theorem priority_zero_id_counterexample :
    (Task.mk (some 0) "t" 5 2 5 []).task_id = some 0 ∧
    (calculate_priority 0 DEFAULT_WEIGHTS (Task.mk (some 0) "t" 5 2 5 [])
      [Task.mk (some 0) "t" 5 2 5 [], Task.mk (some 2) "d" 5 2 5 [0]]
      ).component_scores.dependencies = 20 ∧
    calculate_dependency_score 0
      [Task.mk (some 0) "t" 5 2 5 [], Task.mk (some 2) "d" 5 2 5 [0]] = 44 ∧
    (20 : ℝ) ≠ 44 := by
  refine ⟨rfl, ?_, ?_, by norm_num⟩
  · exact roundTwo_twenty
  · have hb : blockedCount 0
        [Task.mk (some 0) "t" 5 2 5 [], Task.mk (some 2) "d" 5 2 5 [0]] = 1 := by
      decide
    simp only [calculate_dependency_score, hb]
    rw [if_neg (by norm_num), rpow_three_halves _ (by positivity)]
    rw [Nat.cast_one, Real.sqrt_one]
    norm_num

/-- C3 (amended): `calculate_priority` returns the weighted sum of the four
component scores rounded to 2 decimals, where the dependency component is
`calculate_dependency_score` for a task with a nonzero id and the flat 20
for a task with id 0 or no id; the priority level classifies the unrounded
weighted sum by the 80/60 thresholds. -/
theorem calculate_priority_spec (today : Int) (w : Weights) (task : Task)
    (all_tasks : List Task) :
    (calculate_priority today w task all_tasks).priority_score =
      roundTwo (weightedSumSpec today w task all_tasks) ∧
    ((calculate_priority today w task all_tasks).priority_level = "High" ↔
      80 ≤ weightedSumSpec today w task all_tasks) ∧
    ((calculate_priority today w task all_tasks).priority_level = "Medium" ↔
      60 ≤ weightedSumSpec today w task all_tasks ∧
        weightedSumSpec today w task all_tasks < 80) ∧
    ((calculate_priority today w task all_tasks).priority_level = "Low" ↔
      weightedSumSpec today w task all_tasks < 60) := by
  have hlevel : (calculate_priority today w task all_tasks).priority_level =
      (if (80 : ℝ) ≤ weightedSumSpec today w task all_tasks then "High"
       else if (60 : ℝ) ≤ weightedSumSpec today w task all_tasks then "Medium"
       else "Low") := rfl
  refine ⟨rfl, ?_, ?_, ?_⟩ <;> rw [hlevel]
  · by_cases h1 : (80 : ℝ) ≤ weightedSumSpec today w task all_tasks
    · rw [if_pos h1]
      exact iff_of_true rfl h1
    · rw [if_neg h1]
      by_cases h2 : (60 : ℝ) ≤ weightedSumSpec today w task all_tasks
      · rw [if_pos h2]
        exact iff_of_false (by decide) h1
      · rw [if_neg h2]
        exact iff_of_false (by decide) h1
  · by_cases h1 : (80 : ℝ) ≤ weightedSumSpec today w task all_tasks
    · rw [if_pos h1]
      exact iff_of_false (by decide) (fun hc => absurd hc.2 (not_lt.mpr h1))
    · rw [if_neg h1]
      by_cases h2 : (60 : ℝ) ≤ weightedSumSpec today w task all_tasks
      · rw [if_pos h2]
        exact iff_of_true rfl ⟨h2, lt_of_not_le h1⟩
      · rw [if_neg h2]
        exact iff_of_false (by decide) (fun hc => absurd hc.1 h2)
  · by_cases h1 : (80 : ℝ) ≤ weightedSumSpec today w task all_tasks
    · rw [if_pos h1]
      exact iff_of_false (by decide) (not_lt.mpr (by linarith))
    · rw [if_neg h1]
      by_cases h2 : (60 : ℝ) ≤ weightedSumSpec today w task all_tasks
      · rw [if_pos h2]
        exact iff_of_false (by decide) (not_lt.mpr h2)
      · rw [if_neg h2]
        exact iff_of_true rfl (lt_of_not_le h2)

/-- C10: a task whose `task_id` is 0 is scored exactly like a task carrying
no id at all: the dependency component is the flat 20 (rounded: still 20 in
`component_scores`), no matter which tasks in the batch list 0 among their
dependencies. -/
theorem zero_id_treated_as_missing (today : Int) (w : Weights) (task : Task)
    (all_tasks : List Task) :
    calculate_priority today w { task with task_id := some 0 } all_tasks =
      calculate_priority today w { task with task_id := none } all_tasks ∧
    (calculate_priority today w { task with task_id := some 0 }
        all_tasks).component_scores.dependencies = 20 := by
  exact ⟨rfl, roundTwo_twenty⟩

/-! ### Sorting lemmas -/

lemma mem_insertDesc {x z : ScoredTask} {l : List ScoredTask} :
    z ∈ insertDesc x l ↔ z = x ∨ z ∈ l := by
  induction l with
  | nil => simp [insertDesc]
  | cons y ys ih =>
    simp only [insertDesc]
    split_ifs with h
    · simp [List.mem_cons]
    · simp only [List.mem_cons, ih]
      tauto

lemma insertDesc_perm (x : ScoredTask) (l : List ScoredTask) :
    (insertDesc x l).Perm (x :: l) := by
  induction l with
  | nil => simp [insertDesc]
  | cons y ys ih =>
    simp only [insertDesc]
    split_ifs with h
    · exact List.Perm.refl _
    · exact (ih.cons y).trans (List.Perm.swap x y ys)

lemma sortDesc_perm (l : List ScoredTask) : (sortDesc l).Perm l := by
  induction l with
  | nil => exact List.Perm.refl _
  | cons x xs ih => exact (insertDesc_perm x (sortDesc xs)).trans (ih.cons x)

lemma insertDesc_sorted {x : ScoredTask} {l : List ScoredTask}
    (hl : l.Pairwise (fun a b => sortKey b ≤ sortKey a)) :
    (insertDesc x l).Pairwise (fun a b => sortKey b ≤ sortKey a) := by
  induction l with
  | nil => simp [insertDesc]
  | cons y ys ih =>
    rcases List.pairwise_cons.mp hl with ⟨hy, hys⟩
    simp only [insertDesc]
    split_ifs with h
    · refine List.pairwise_cons.mpr ⟨?_, hl⟩
      intro z hz
      rcases List.mem_cons.mp hz with rfl | hz'
      · exact h
      · exact le_trans (hy z hz') h
    · refine List.pairwise_cons.mpr ⟨?_, ih hys⟩
      intro z hz
      rcases mem_insertDesc.mp hz with rfl | hz'
      · exact le_of_lt (lt_of_not_le h)
      · exact hy z hz'

lemma sortDesc_sorted (l : List ScoredTask) :
    (sortDesc l).Pairwise (fun a b => sortKey b ≤ sortKey a) := by
  induction l with
  | nil => simp [sortDesc]
  | cons x xs ih => exact insertDesc_sorted ih

lemma sublist_insertDesc (x : ScoredTask) (l : List ScoredTask) :
    l.Sublist (insertDesc x l) := by
  induction l with
  | nil => simp [insertDesc]
  | cons y ys ih =>
    simp only [insertDesc]
    split_ifs with h
    · exact List.Sublist.cons x (List.Sublist.refl _)
    · exact List.Sublist.cons₂ y ih

lemma pair_sublist_insertDesc {x b : ScoredTask} {l : List ScoredTask}
    (hb : b ∈ l) (hkey : sortKey b ≤ sortKey x) :
    [x, b].Sublist (insertDesc x l) := by
  induction l with
  | nil => cases hb
  | cons y ys ih =>
    simp only [insertDesc]
    split_ifs with h
    · exact List.Sublist.cons₂ x (List.singleton_sublist.mpr hb)
    · rcases List.mem_cons.mp hb with rfl | hb'
      · exact absurd hkey h
      · exact List.Sublist.cons y (ih hb')

/-- Stability: a pair that appears in order in the input and whose first
element has a key at least as large stays in order in the sorted output. -/
lemma pair_sublist_sortDesc {a b : ScoredTask} {l : List ScoredTask}
    (h : [a, b].Sublist l) (hkey : sortKey b ≤ sortKey a) :
    [a, b].Sublist (sortDesc l) := by
  induction l with
  | nil => simp at h
  | cons y ys ih =>
    simp only [sortDesc]
    cases h with
    | cons _ h' => exact (ih h').trans (sublist_insertDesc y (sortDesc ys))
    | cons₂ _ h' =>
      have hbmem : b ∈ sortDesc ys :=
        (sortDesc_perm ys).mem_iff.mpr (List.singleton_sublist.mp h')
      exact pair_sublist_insertDesc hbmem hkey

/-- A pair-sublist yields ordered positions. -/
lemma pair_sublist_get {α : Type _} {a b : α} :
    ∀ {l : List α}, [b, a].Sublist l →
      ∃ i j : Nat, i < j ∧ l[i]? = some b ∧ l[j]? = some a := by
  intro l h
  induction l with
  | nil => simp at h
  | cons y ys ih =>
    cases h with
    | cons _ h' =>
      rcases ih h' with ⟨i, j, hij, hi, hj⟩
      exact ⟨i + 1, j + 1, by omega, by simpa using hi, by simpa using hj⟩
    | cons₂ _ h' =>
      rcases List.mem_iff_getElem?.mp (List.singleton_sublist.mp h') with ⟨j, hj⟩
      exact ⟨0, j + 1, Nat.succ_pos j, by simp, by simpa using hj⟩

/-- In a duplicate-free list an element sits at a unique position. -/
lemma nodup_index_unique {α : Type _} {l : List α} (h : l.Nodup) {a : α}
    {i j : Nat} (hi : l[i]? = some a) (hj : l[j]? = some a) : i = j := by
  induction l generalizing i j with
  | nil => simp at hi
  | cons y ys ih =>
    rcases List.nodup_cons.mp h with ⟨hy, hys⟩
    match i, j with
    | 0, 0 => rfl
    | 0, k + 1 =>
      exfalso
      apply hy
      have ha : y = a := by simpa using hi
      have : ys[k]? = some a := by simpa using hj
      subst ha
      exact List.getElem?_mem this
    | k + 1, 0 =>
      exfalso
      apply hy
      have ha : y = a := by simpa using hj
      have : ys[k]? = some a := by simpa using hi
      subst ha
      exact List.getElem?_mem this
    | k + 1, m + 1 =>
      have := ih hys (by simpa using hi) (by simpa using hj)
      omega

/-! ### C6 -/

/-- C6: `score_tasks` returns exactly one scored record per input task (the
input task merged with its score data), the output is sorted descending by
`priority_score`, and tasks with equal `priority_score` keep their input
order (stability, stated as preservation of equal-key pairs). -/
theorem score_tasks_spec (today : Int) (w : Weights) (tasks : List Task) :
    (score_tasks today w tasks).Perm (tasks.map (scoreOne today w tasks)) ∧
    (score_tasks today w tasks).Pairwise
      (fun x y => y.result.priority_score ≤ x.result.priority_score) ∧
    (∀ x y : ScoredTask, [x, y].Sublist (tasks.map (scoreOne today w tasks)) →
      x.result.priority_score = y.result.priority_score →
      [x, y].Sublist (score_tasks today w tasks)) :=
  ⟨sortDesc_perm _, sortDesc_sorted _, fun _ _ hsub hkey =>
    pair_sublist_sortDesc hsub (le_of_eq hkey.symm)⟩

/-- C6 witness: stability instantiated on two equal-scoring concrete tasks. -/
theorem score_tasks_spec_witness :
    [scoreOne 0 DEFAULT_WEIGHTS [Task.mk none "a" 5 2 5 [], Task.mk none "b" 5 2 5 []]
        (Task.mk none "a" 5 2 5 []),
      scoreOne 0 DEFAULT_WEIGHTS [Task.mk none "a" 5 2 5 [], Task.mk none "b" 5 2 5 []]
        (Task.mk none "b" 5 2 5 [])].Sublist
      (score_tasks 0 DEFAULT_WEIGHTS
        [Task.mk none "a" 5 2 5 [], Task.mk none "b" 5 2 5 []]) :=
  (score_tasks_spec 0 DEFAULT_WEIGHTS
    [Task.mk none "a" 5 2 5 [], Task.mk none "b" 5 2 5 []]).2.2 _ _
    (List.Sublist.refl _) rfl

/-! ### C5 -/

set_option maxRecDepth 40000 in
/-- `4 ≤ n ≤ 618` forces `n^3 ≤ (25n - 80)^2`, i.e. the raw dependency
formula stays at 100 or above after clamping. -/
lemma cube_le_sq_span : ∀ n : ℕ, n < 619 → 4 ≤ n →
    (n : ℤ) ^ 3 ≤ (25 * (n : ℤ) - 80) ^ 2 := by decide

lemma raw_dep_ge_100 {n : ℕ} (h4 : 4 ≤ n) (h618 : n ≤ 618) :
    (100 : ℝ) ≤ 20 + (n : ℝ) * 25 - (n : ℝ) * Real.sqrt n := by
  have hz : (n : ℤ) ^ 3 ≤ (25 * (n : ℤ) - 80) ^ 2 :=
    cube_le_sq_span n (by omega) h4
  have hr : (n : ℝ) ^ 3 ≤ (25 * (n : ℝ) - 80) ^ 2 := by exact_mod_cast hz
  have hx0 : (0 : ℝ) ≤ (n : ℝ) := by positivity
  have h4r : (4 : ℝ) ≤ (n : ℝ) := by exact_mod_cast h4
  have hkey : (n : ℝ) * Real.sqrt n ≤ 25 * (n : ℝ) - 80 := by
    refine le_of_sq_le_sq (by positivity) (by linarith) ?_
    have hpow : ((n : ℝ) * Real.sqrt n) ^ 2 = (n : ℝ) ^ 3 := by
      rw [mul_pow, Real.sq_sqrt hx0]
      ring
    rw [hpow]
    exact hr
  linarith

lemma nsqrt_le_25n {n : ℕ} (h : n ≤ 618) :
    (n : ℝ) * Real.sqrt n ≤ 25 * (n : ℝ) := by
  have hx0 : (0 : ℝ) ≤ (n : ℝ) := by positivity
  have hn625 : (n : ℝ) ≤ 625 := by
    have : (n : ℝ) ≤ 618 := by exact_mod_cast h
    linarith
  have hs : Real.sqrt n ≤ 25 := by
    calc Real.sqrt n ≤ Real.sqrt 625 := Real.sqrt_le_sqrt hn625
    _ = 25 := by rw [show (625 : ℝ) = 25 ^ 2 by norm_num, Real.sqrt_sq (by norm_num)]
  calc (n : ℝ) * Real.sqrt n ≤ (n : ℝ) * 25 := by nlinarith
  _ = 25 * (n : ℝ) := by ring

/-- The clamped dependency score is monotone in the fan-out as long as the
larger fan-out stays at or below 618. -/
lemma dependency_score_mono {i j : Int} {tasks : List Task}
    (hle : blockedCount i tasks ≤ blockedCount j tasks)
    (hbound : blockedCount j tasks ≤ 618) :
    calculate_dependency_score i tasks ≤ calculate_dependency_score j tasks := by
  simp only [calculate_dependency_score]
  set m := blockedCount i tasks with hm_def
  set n := blockedCount j tasks with hn_def
  by_cases hm : m = 0
  · rw [if_pos hm]
    by_cases hn : n = 0
    · rw [if_pos hn]
    · rw [if_neg hn, rpow_three_halves _ (by positivity)]
      refine le_min (by norm_num) ?_
      have h := nsqrt_le_25n (n := n) hbound
      linarith
  · have hn : n ≠ 0 := by omega
    rw [if_neg hm, if_neg hn, rpow_three_halves _ (by positivity),
      rpow_three_halves _ (by positivity)]
    by_cases hn4 : 4 ≤ n
    · have h100 := raw_dep_ge_100 hn4 hbound
      have hrhs : min (100 : ℝ) (20 + (n : ℝ) * 25 - (n : ℝ) * Real.sqrt n) = 100 :=
        min_eq_left (by linarith)
      rw [hrhs]
      exact min_le_left _ _
    · have hn3 : n ≤ 3 := by omega
      rcases eq_or_lt_of_le hle with heq | hlt
      · rw [heq]
      · refine min_le_min le_rfl ?_
        have hmn : (m : ℝ) + 1 ≤ (n : ℝ) := by exact_mod_cast hlt
        have hn3r : (n : ℝ) ≤ 3 := by exact_mod_cast hn3
        have hs3 : Real.sqrt n ≤ 2 := by
          calc Real.sqrt n ≤ Real.sqrt 4 := Real.sqrt_le_sqrt (by linarith)
          _ = 2 := by rw [show (4 : ℝ) = 2 ^ 2 by norm_num, Real.sqrt_sq (by norm_num)]
        have hnn : (0 : ℝ) ≤ (n : ℝ) := by positivity
        have h6 : (n : ℝ) * Real.sqrt n ≤ 6 := by nlinarith [Real.sqrt_nonneg (n : ℝ)]
        have hm0 : (0 : ℝ) ≤ (m : ℝ) * Real.sqrt m := by positivity
        linarith

/-- Monotonicity of `round(x, 2)`. -/
lemma roundTwo_mono {a b : ℝ} (h : a ≤ b) : roundTwo a ≤ roundTwo b := by
  have hr : round (a * 100) ≤ round (b * 100) := by
    rw [round_eq, round_eq]
    exact Int.floor_mono (by linarith)
  have hc : ((round (a * 100) : ℤ) : ℝ) ≤ ((round (b * 100) : ℤ) : ℝ) := by
    exact_mod_cast hr
  simp only [roundTwo]
  linarith

/-- The priority score of a task that carries a nonzero id, written out. -/
lemma priority_score_of_id {today : Int} {w : Weights} {task : Task}
    {all_tasks : List Task} {a : Int} (h : task.task_id = some a) (ha : a ≠ 0) :
    (calculate_priority today w task all_tasks).priority_score =
      roundTwo (calculate_urgency_score today task.due_date * (w.urgency : ℝ) +
        calculate_importance_score task.importance * (w.importance : ℝ) +
        calculate_effort_score task.estimated_hours * (w.effort : ℝ) +
        calculate_dependency_score a all_tasks * (w.dependencies : ℝ)) := by
  simp only [calculate_priority, h]
  rw [if_pos ha]

/-- Claim-side ranking statement: `a` appears at a position no later than
some position of `b` in the output. -/
def ranksNoLaterThan (out : List ScoredTask) (a b : ScoredTask) : Prop :=
  ∃ i j : Nat, i ≤ j ∧ out[i]? = some a ∧ out[j]? = some b

/-- C5 (amended): under `smart_balance`, for two tasks with identical due
date, importance and estimated hours, both with nonzero ids and fan-outs at
most 618, if the higher-fan-out task also precedes the other in the input,
it is ranked at the same or an earlier position by `score_tasks`. -/
theorem smart_balance_fanout_rank (today : Int) (tasks : List Task)
    (thi tlo : Task) (a b : Int)
    (hA : thi.task_id = some a) (hB : tlo.task_id = some b)
    (ha0 : a ≠ 0) (hb0 : b ≠ 0)
    (hsub : [thi, tlo].Sublist tasks)
    (hdue : thi.due_date = tlo.due_date)
    (himp : thi.importance = tlo.importance)
    (hhours : thi.estimated_hours = tlo.estimated_hours)
    (hfan : blockedCount b tasks ≤ blockedCount a tasks)
    (hbound : blockedCount a tasks ≤ 618) :
    ranksNoLaterThan (score_tasks today DEFAULT_WEIGHTS tasks)
      (scoreOne today DEFAULT_WEIGHTS tasks thi)
      (scoreOne today DEFAULT_WEIGHTS tasks tlo) := by
  have hdep : calculate_dependency_score b tasks ≤ calculate_dependency_score a tasks :=
    dependency_score_mono hfan hbound
  have hkey : sortKey (scoreOne today DEFAULT_WEIGHTS tasks tlo) ≤
      sortKey (scoreOne today DEFAULT_WEIGHTS tasks thi) := by
    simp only [sortKey, scoreOne]
    rw [priority_score_of_id hA ha0, priority_score_of_id hB hb0, hdue, himp, hhours]
    refine roundTwo_mono (add_le_add le_rfl ?_)
    exact mul_le_mul_of_nonneg_right hdep (by norm_num [DEFAULT_WEIGHTS])
  have hpair : [scoreOne today DEFAULT_WEIGHTS tasks thi,
      scoreOne today DEFAULT_WEIGHTS tasks tlo].Sublist
      (tasks.map (scoreOne today DEFAULT_WEIGHTS tasks)) := by
    simpa using hsub.map (scoreOne today DEFAULT_WEIGHTS tasks)
  have hout := pair_sublist_sortDesc hpair hkey
  rcases pair_sublist_get hout with ⟨i, j, hij, h1, h2⟩
  exact ⟨i, j, le_of_lt hij, h1, h2⟩

/-- C5 witness: the amended ranking statement at two concrete tasks. -/
theorem smart_balance_fanout_rank_witness :
    ranksNoLaterThan
      (score_tasks 0 DEFAULT_WEIGHTS
        [Task.mk (some 1) "a" 5 2 5 [], Task.mk (some 2) "b" 5 2 5 []])
      (scoreOne 0 DEFAULT_WEIGHTS
        [Task.mk (some 1) "a" 5 2 5 [], Task.mk (some 2) "b" 5 2 5 []]
        (Task.mk (some 1) "a" 5 2 5 []))
      (scoreOne 0 DEFAULT_WEIGHTS
        [Task.mk (some 1) "a" 5 2 5 [], Task.mk (some 2) "b" 5 2 5 []]
        (Task.mk (some 2) "b" 5 2 5 [])) :=
  smart_balance_fanout_rank 0 _ _ _ 1 2 rfl rfl (by decide) (by decide)
    (List.Sublist.refl _) rfl rfl rfl (by decide) (by decide)

def c5High : Task := ⟨some 1, "A", 5, 2, 5, []⟩
def c5Low : Task := ⟨some 2, "B", 5, 2, 5, []⟩

/-- A batch in which 5 tasks depend on `c5High` and 4 on `c5Low`, with
`c5Low` listed first. -/
def c5Batch : List Task :=
  [c5Low, c5High,
   ⟨some 11, "F1", 5, 2, 5, [1, 2]⟩, ⟨some 12, "F2", 5, 2, 5, [1, 2]⟩,
   ⟨some 13, "F3", 5, 2, 5, [1, 2]⟩, ⟨some 14, "F4", 5, 2, 5, [1, 2]⟩,
   ⟨some 15, "F5", 5, 2, 5, [1]⟩]

/-- C5 counterexample: both fan-outs 5 and 4 clamp the dependency score to
100, the two priority scores tie, and the stable sort keeps the input order,
so the higher-fan-out task `c5High` is ranked strictly later than `c5Low` --
the claim as stated fails. -/
theorem smart_balance_fanout_counterexample :
    blockedCount 1 c5Batch = 5 ∧ blockedCount 2 c5Batch = 4 ∧
    c5High.due_date = c5Low.due_date ∧ c5High.importance = c5Low.importance ∧
    c5High.estimated_hours = c5Low.estimated_hours ∧
    ¬ ranksNoLaterThan (score_tasks 0 DEFAULT_WEIGHTS c5Batch)
        (scoreOne 0 DEFAULT_WEIGHTS c5Batch c5High)
        (scoreOne 0 DEFAULT_WEIGHTS c5Batch c5Low) := by
  refine ⟨by decide, by decide, rfl, rfl, rfl, ?_⟩
  have hdepA : calculate_dependency_score 1 c5Batch = 100 := by
    have hb : blockedCount 1 c5Batch = 5 := by decide
    simp only [calculate_dependency_score, hb]
    rw [if_neg (by norm_num), rpow_three_halves _ (by positivity)]
    push_cast
    have hs5 : Real.sqrt 5 ≤ 9 := by
      calc Real.sqrt 5 ≤ Real.sqrt 81 := Real.sqrt_le_sqrt (by norm_num)
      _ = 9 := by rw [show (81 : ℝ) = 9 ^ 2 by norm_num, Real.sqrt_sq (by norm_num)]
    rw [min_eq_left (by linarith)]
  have hdepB : calculate_dependency_score 2 c5Batch = 100 := by
    have hb : blockedCount 2 c5Batch = 4 := by decide
    simp only [calculate_dependency_score, hb]
    rw [if_neg (by norm_num), rpow_three_halves _ (by positivity)]
    push_cast
    have hs4 : Real.sqrt 4 = 2 := by
      rw [show (4 : ℝ) = 2 ^ 2 by norm_num, Real.sqrt_sq (by norm_num)]
    rw [hs4, min_eq_left (by norm_num)]
  have hkeyeq : sortKey (scoreOne 0 DEFAULT_WEIGHTS c5Batch c5High) =
      sortKey (scoreOne 0 DEFAULT_WEIGHTS c5Batch c5Low) := by
    simp only [sortKey, scoreOne]
    rw [priority_score_of_id (show c5High.task_id = some 1 from rfl) (by decide),
      priority_score_of_id (show c5Low.task_id = some 2 from rfl) (by decide),
      hdepA, hdepB]
    rfl
  have hpair0 : [scoreOne 0 DEFAULT_WEIGHTS c5Batch c5Low,
      scoreOne 0 DEFAULT_WEIGHTS c5Batch c5High].Sublist
      (c5Batch.map (scoreOne 0 DEFAULT_WEIGHTS c5Batch)) :=
    List.Sublist.cons₂ _ (List.Sublist.cons₂ _ (List.nil_sublist _))
  have hout := pair_sublist_sortDesc hpair0 (le_of_eq hkeyeq)
  have hinj : Function.Injective (scoreOne 0 DEFAULT_WEIGHTS c5Batch) :=
    fun x y h => congrArg ScoredTask.task h
  have hnodup : (score_tasks 0 DEFAULT_WEIGHTS c5Batch).Nodup :=
    ((sortDesc_perm _).nodup_iff).mpr ((by decide : c5Batch.Nodup).map hinj)
  rintro ⟨i, j, hij, hiA, hjB⟩
  rcases pair_sublist_get hout with ⟨i0, j0, hij0, hB0, hA0⟩
  have h1 : i = j0 := nodup_index_unique hnodup hiA hA0
  have h2 : j = i0 := nodup_index_unique hnodup hjB hB0
  omega

/-! ### C9 -/

lemma enumerateFrom_length {α : Type _} (i : Nat) (l : List α) :
    (enumerateFrom i l).length = l.length := by
  induction l generalizing i with
  | nil => rfl
  | cons x xs ih => simp [enumerateFrom, ih]

lemma action_items_length (today : Int) (st : ScoredTask) (rank : Nat) :
    2 ≤ (_generate_action_items today st rank).length ∧
    (_generate_action_items today st rank).length ≤ 4 := by
  simp only [_generate_action_items]
  split_ifs <;> simp

/-- C9: with at least `limit` tasks, `get_top_suggestions` returns exactly
`limit` suggestions -- the first `limit` entries of the batch-scored ranking
in order -- and every suggestion carries between 2 and 4 action items. -/
theorem top_suggestions_spec (today : Int) (w : Weights) (tasks : List Task)
    (limit : Nat) (hlim : limit ≤ tasks.length) :
    (get_top_suggestions today w tasks limit).length = limit ∧
    get_top_suggestions today w tasks limit =
      (enumerateFrom 1 ((score_tasks today w tasks).take limit)).map
        (mkSuggestion today) ∧
    ∀ s ∈ get_top_suggestions today w tasks limit,
      2 ≤ s.action_items.length ∧ s.action_items.length ≤ 4 := by
  refine ⟨?_, rfl, ?_⟩
  · have hlen : (score_tasks today w tasks).length = tasks.length := by
      simp only [score_tasks]
      rw [(sortDesc_perm _).length_eq, List.length_map]
    simp only [get_top_suggestions, List.length_map, enumerateFrom_length,
      List.length_take, hlen]
    omega
  · intro s hs
    simp only [get_top_suggestions, List.mem_map] at hs
    rcases hs with ⟨p, _, rfl⟩
    exact action_items_length today p.2 p.1

/-- C9 witness: three concrete tasks with `limit = 3`. -/
theorem top_suggestions_spec_witness :
    (get_top_suggestions 0 DEFAULT_WEIGHTS
      [Task.mk none "a" 5 2 5 [], Task.mk none "b" 3 1 7 [],
       Task.mk none "c" 9 6 2 []] 3).length = 3 :=
  (top_suggestions_spec 0 DEFAULT_WEIGHTS
    [Task.mk none "a" 5 2 5 [], Task.mk none "b" 3 1 7 [],
     Task.mk none "c" 9 6 2 []] 3 (by decide)).1

/-! ### C2: basic state lemmas for the depth-first search -/

/-- The general edge relation over an adjacency list and an id set. -/
def EdgeG (graph : List (Int × List Int)) (tids : List Int) (u v : Int) : Prop :=
  u ∈ tids ∧ v ∈ tids ∧ v ∈ lookupDeps graph u

lemma dfsStep_recStack (tids : List Int) (go : Int → List Int → DfsState → DfsState)
    (hgo : ∀ n p s, (go n p s).recStack = s.recStack)
    (path : List Int) (s : DfsState) (n : Int) :
    (dfsStep tids go path s n).recStack = s.recStack := by
  simp only [dfsStep]
  split_ifs <;> simp [hgo]

lemma dfsLoop_recStack (tids : List Int) (go : Int → List Int → DfsState → DfsState)
    (hgo : ∀ n p s, (go n p s).recStack = s.recStack) (path : List Int) :
    ∀ (ns : List Int) (s : DfsState),
      (dfsLoop tids go path ns s).recStack = s.recStack := by
  intro ns
  induction ns with
  | nil => intro s; rfl
  | cons n ns ih =>
    intro s
    rw [dfsLoop, ih, dfsStep_recStack tids go hgo]

lemma dfsAux_recStack (graph : List (Int × List Int)) (tids : List Int) :
    ∀ (fuel : Nat) (node : Int) (path : List Int) (s : DfsState),
      (dfsAux graph tids fuel node path s).recStack = s.recStack := by
  intro fuel
  induction fuel with
  | zero => intro node path s; rfl
  | succ fuel ih =>
    intro node path s
    simp only [dfsAux]
    rw [dfsLoop_recStack tids _ (fun n p s' => ih n p s')]
    exact List.erase_cons_head node s.recStack

lemma dfsStep_visited (tids : List Int) (go : Int → List Int → DfsState → DfsState)
    (hgo : ∀ n p s, s.visited ⊆ (go n p s).visited)
    (path : List Int) (s : DfsState) (n : Int) :
    s.visited ⊆ (dfsStep tids go path s n).visited := by
  simp only [dfsStep]
  split_ifs <;> first | exact fun a ha => ha | exact hgo n path s

lemma dfsLoop_visited (tids : List Int) (go : Int → List Int → DfsState → DfsState)
    (hgo : ∀ n p s, s.visited ⊆ (go n p s).visited) (path : List Int) :
    ∀ (ns : List Int) (s : DfsState),
      s.visited ⊆ (dfsLoop tids go path ns s).visited := by
  intro ns
  induction ns with
  | nil => intro s a ha; exact ha
  | cons n ns ih =>
    intro s
    rw [dfsLoop]
    exact (dfsStep_visited tids go hgo path s n).trans (ih _)

lemma dfsAux_visited (graph : List (Int × List Int)) (tids : List Int) :
    ∀ (fuel : Nat) (node : Int) (path : List Int) (s : DfsState),
      s.visited ⊆ (dfsAux graph tids fuel node path s).visited := by
  intro fuel
  induction fuel with
  | zero => intro node path s a ha; exact ha
  | succ fuel ih =>
    intro node path s
    simp only [dfsAux]
    intro a ha
    exact dfsLoop_visited tids _ (fun n p s' => ih n p s') _ _ _
      (List.mem_cons_of_mem node ha)

lemma dfsStep_cycles (tids : List Int) (go : Int → List Int → DfsState → DfsState)
    (hgo : ∀ n p s, ∃ t, (go n p s).cycles = s.cycles ++ t)
    (path : List Int) (s : DfsState) (n : Int) :
    ∃ t, (dfsStep tids go path s n).cycles = s.cycles ++ t := by
  simp only [dfsStep]
  split_ifs <;> first
    | exact ⟨[], (List.append_nil _).symm⟩
    | exact hgo n path s
    | exact ⟨[extractCycle path n], rfl⟩

lemma dfsLoop_cycles (tids : List Int) (go : Int → List Int → DfsState → DfsState)
    (hgo : ∀ n p s, ∃ t, (go n p s).cycles = s.cycles ++ t) (path : List Int) :
    ∀ (ns : List Int) (s : DfsState),
      ∃ t, (dfsLoop tids go path ns s).cycles = s.cycles ++ t := by
  intro ns
  induction ns with
  | nil => intro s; exact ⟨[], by simp [dfsLoop]⟩
  | cons n ns ih =>
    intro s
    rw [dfsLoop]
    rcases dfsStep_cycles tids go hgo path s n with ⟨t1, h1⟩
    rcases ih (dfsStep tids go path s n) with ⟨t2, h2⟩
    exact ⟨t1 ++ t2, by rw [h2, h1, List.append_assoc]⟩

lemma dfsAux_cycles (graph : List (Int × List Int)) (tids : List Int) :
    ∀ (fuel : Nat) (node : Int) (path : List Int) (s : DfsState),
      ∃ t, (dfsAux graph tids fuel node path s).cycles = s.cycles ++ t := by
  intro fuel
  induction fuel with
  | zero => intro node path s; exact ⟨[], by simp [dfsAux]⟩
  | succ fuel ih =>
    intro node path s
    simp only [dfsAux]
    exact dfsLoop_cycles tids _ (fun n p s' => ih n p s') _ _ _

/-! ### C2: soundness (a recorded cycle implies a cycle in the graph) -/

lemma dfsLoop_sound (graph : List (Int × List Int)) (tids : List Int)
    (go : Int → List Int → DfsState → DfsState)
    (hgoR : ∀ n p s, (go n p s).recStack = s.recStack)
    (hgo : ∀ n p s, n ∈ tids →
      (∀ v ∈ s.recStack, v = n ∨ Relation.TransGen (EdgeG graph tids) v n) →
      (s.cycles ≠ [] → ∃ u, Relation.TransGen (EdgeG graph tids) u u) →
      ((go n p s).cycles ≠ [] → ∃ u, Relation.TransGen (EdgeG graph tids) u u))
    (node : Int) (hnode : node ∈ tids) (path : List Int) :
    ∀ (ns : List Int) (s : DfsState), ns ⊆ lookupDeps graph node →
      (∀ v ∈ s.recStack, v = node ∨ Relation.TransGen (EdgeG graph tids) v node) →
      (s.cycles ≠ [] → ∃ u, Relation.TransGen (EdgeG graph tids) u u) →
      ((dfsLoop tids go path ns s).cycles ≠ [] →
        ∃ u, Relation.TransGen (EdgeG graph tids) u u) := by
  intro ns
  induction ns with
  | nil => intro s _ _ hQ; exact hQ
  | cons n ns ih =>
    intro s hsub hstack hQ
    rw [dfsLoop]
    have hns : ns ⊆ lookupDeps graph node := fun x hx => hsub (List.mem_cons_of_mem _ hx)
    have hstack' : ∀ v ∈ (dfsStep tids go path s n).recStack,
        v = node ∨ Relation.TransGen (EdgeG graph tids) v node := by
      rw [dfsStep_recStack tids go hgoR]
      exact hstack
    refine ih _ hns hstack' ?_
    simp only [dfsStep]
    split_ifs with h1 h2 h3
    · intro _
      have hedge : EdgeG graph tids node n :=
        ⟨hnode, h1, hsub (List.mem_cons_self n ns)⟩
      rcases hstack n h3 with rfl | htg
      · exact ⟨n, Relation.TransGen.single hedge⟩
      · exact ⟨n, htg.tail hedge⟩
    · exact hQ
    · have hedge : EdgeG graph tids node n :=
        ⟨hnode, h1, hsub (List.mem_cons_self n ns)⟩
      refine hgo n path s h1 ?_ hQ
      intro v hv
      rcases hstack v hv with rfl | htg
      · exact Or.inr (Relation.TransGen.single hedge)
      · exact Or.inr (htg.tail hedge)
    · exact hQ

lemma dfsAux_sound (graph : List (Int × List Int)) (tids : List Int) :
    ∀ (fuel : Nat) (node : Int) (path : List Int) (s : DfsState), node ∈ tids →
      (∀ v ∈ s.recStack, v = node ∨ Relation.TransGen (EdgeG graph tids) v node) →
      (s.cycles ≠ [] → ∃ u, Relation.TransGen (EdgeG graph tids) u u) →
      ((dfsAux graph tids fuel node path s).cycles ≠ [] →
        ∃ u, Relation.TransGen (EdgeG graph tids) u u) := by
  intro fuel
  induction fuel with
  | zero => intro node path s _ _ hQ; exact hQ
  | succ fuel ih =>
    intro node path s hnode hstack hQ
    simp only [dfsAux]
    refine dfsLoop_sound graph tids _
      (fun n p s' => dfsAux_recStack graph tids fuel n p s')
      (fun n p s' => ih n p s') node hnode (path ++ [node]) (lookupDeps graph node)
      ⟨node :: s.visited, node :: s.recStack, s.cycles⟩
      (fun x hx => hx) ?_ hQ
    intro v hv
    rcases List.mem_cons.mp hv with rfl | hv'
    · exact Or.inl rfl
    · exact hstack v hv'

lemma detect_fold_sound (graph : List (Int × List Int)) (tids : List Int) (fuel : Nat) :
    ∀ (l : List (Int × List Int)) (s : DfsState),
      (∀ p ∈ l, p.1 ∈ tids) → s.recStack = [] →
      (s.cycles ≠ [] → ∃ u, Relation.TransGen (EdgeG graph tids) u u) →
      ((l.foldl (fun s p =>
          if p.1 ∉ s.visited then dfsAux graph tids fuel p.1 [] s else s) s).cycles ≠ [] →
        ∃ u, Relation.TransGen (EdgeG graph tids) u u) := by
  intro l
  induction l with
  | nil => intro s _ _ hQ; exact hQ
  | cons p l ih =>
    intro s hmem hrs hQ
    simp only [List.foldl_cons]
    by_cases hv : p.1 ∉ s.visited
    · rw [if_pos hv]
      refine ih _ (fun q hq => hmem q (List.mem_cons_of_mem _ hq)) ?_ ?_
      · rw [dfsAux_recStack]
        exact hrs
      · refine dfsAux_sound graph tids fuel p.1 [] s
          (hmem p (List.mem_cons_self p l)) ?_ hQ
        intro v hv'
        rw [hrs] at hv'
        exact absurd hv' (List.not_mem_nil v)
    · rw [if_neg hv]
      exact ih _ (fun q hq => hmem q (List.mem_cons_of_mem _ hq)) hrs hQ

lemma taskIdsOf_cons (t : Task) (ts : List Task) :
    taskIdsOf (t :: ts) = match t.task_id with
      | none => taskIdsOf ts
      | some i => i :: taskIdsOf ts := by
  cases h : t.task_id <;> simp [taskIdsOf, List.filterMap_cons, h]

lemma mem_taskIdsOf_cons {x : Int} {t : Task} {ts : List Task}
    (h : x ∈ taskIdsOf ts) : x ∈ taskIdsOf (t :: ts) := by
  rw [taskIdsOf_cons]
  cases t.task_id
  · exact h
  · exact List.mem_cons_of_mem _ h

lemma insertOrReplace_keys {g : List (Int × List Int)} {k : Int} {v : List Int}
    {x : Int} :
    x ∈ (insertOrReplace g k v).map Prod.fst ↔ x = k ∨ x ∈ g.map Prod.fst := by
  induction g with
  | nil => simp [insertOrReplace]
  | cons p rest ih =>
    simp only [insertOrReplace]
    split_ifs with h
    · subst h
      simp [List.map_cons, List.mem_cons]
    · simp only [List.map_cons, List.mem_cons, ih]
      tauto

lemma buildGraph_go_keys :
    ∀ (ts : List Task) (g : List (Int × List Int)) (p : Int × List Int),
      p ∈ ts.foldl (fun g t =>
          match t.task_id with
          | none => g
          | some i => insertOrReplace g i t.dependencies) g →
      p.1 ∈ g.map Prod.fst ∨ p.1 ∈ taskIdsOf ts := by
  intro ts
  induction ts with
  | nil => intro g p hp; exact Or.inl (List.mem_map_of_mem _ hp)
  | cons t ts ih =>
    intro g p hp
    simp only [List.foldl_cons] at hp
    rcases ih _ p hp with hkey | hid
    · rcases ht : t.task_id with _ | i
      · rw [ht] at hkey
        exact Or.inl hkey
      · rw [ht] at hkey
        rcases insertOrReplace_keys.mp hkey with rfl | hkey'
        · refine Or.inr ?_
          rw [taskIdsOf_cons, ht]
          exact List.mem_cons_self _ _
        · exact Or.inl hkey'
    · exact Or.inr (mem_taskIdsOf_cons hid)

lemma buildGraph_keys {tasks : List Task} {p : Int × List Int}
    (hp : p ∈ buildGraph tasks) : p.1 ∈ taskIdsOf tasks := by
  rcases buildGraph_go_keys tasks [] p hp with h | h
  · simp at h
  · exact h

lemma detect_sound {tasks : List Task}
    (h : detect_circular_dependencies tasks ≠ []) : HasCycle tasks := by
  simp only [detect_circular_dependencies] at h
  exact detect_fold_sound (buildGraph tasks) (taskIdsOf tasks) (tasks.length + 1)
    (buildGraph tasks) ⟨[], [], []⟩ (fun p hp => buildGraph_keys hp) rfl
    (fun hc => absurd rfl hc) h

/-! ### C2: completeness (an empty cycle report implies an acyclic graph)

The invariant: the finished nodes (visited and off the recursion stack)
carry a rank that strictly decreases along every edge out of a finished
node; when the whole traversal finishes with no recorded cycle, every key of
the graph is finished, so a cycle would make a rank smaller than itself. -/

def finished (s : DfsState) (u : Int) : Prop :=
  u ∈ s.visited ∧ u ∉ s.recStack

def Inv (graph : List (Int × List Int)) (tids : List Int) (s : DfsState) : Prop :=
  ∃ (r : Int → Nat) (B : Nat),
    (∀ u, finished s u → r u < B) ∧
    (∀ u, finished s u → ∀ v, EdgeG graph tids u v → finished s v ∧ r v < r u)

def remainingCount (tids : List Int) (vis : List Int) : Nat :=
  tids.countP (fun t => decide (t ∉ vis))

lemma countP_mono_of_imp {l : List Int} {p q : Int → Bool}
    (h : ∀ a ∈ l, p a = true → q a = true) : l.countP p ≤ l.countP q := by
  induction l with
  | nil => exact le_refl _
  | cons x xs ih =>
    have ihh := ih (fun a ha hp => h a (List.mem_cons_of_mem _ ha) hp)
    by_cases hpx : p x = true
    · rw [List.countP_cons_of_pos _ _ hpx,
        List.countP_cons_of_pos _ _ (h x (List.mem_cons_self _ _) hpx)]
      omega
    · rw [List.countP_cons_of_neg _ _ hpx]
      by_cases hqx : q x = true
      · rw [List.countP_cons_of_pos _ _ hqx]
        omega
      · rw [List.countP_cons_of_neg _ _ hqx]
        omega

lemma countP_lt_of_flip {l : List Int} {p q : Int → Bool} {x : Int}
    (hmem : x ∈ l) (hp : p x = false) (hq : q x = true)
    (himp : ∀ a ∈ l, p a = true → q a = true) : l.countP p < l.countP q := by
  induction l with
  | nil => cases hmem
  | cons y ys ih =>
    rcases List.mem_cons.mp hmem with rfl | hx
    · have hmono := countP_mono_of_imp
        (fun a ha => himp a (List.mem_cons_of_mem _ ha))
      rw [List.countP_cons_of_neg _ _ (by simp [hp]),
        List.countP_cons_of_pos _ _ hq]
      omega
    · have ihh := ih hx (fun a ha => himp a (List.mem_cons_of_mem _ ha))
      by_cases hpy : p y = true
      · rw [List.countP_cons_of_pos _ _ hpy,
          List.countP_cons_of_pos _ _ (himp y (List.mem_cons_self _ _) hpy)]
        omega
      · rw [List.countP_cons_of_neg _ _ hpy]
        by_cases hqy : q y = true
        · rw [List.countP_cons_of_pos _ _ hqy]
          omega
        · rw [List.countP_cons_of_neg _ _ hqy]
          omega

lemma remainingCount_mono {tids vis vis' : List Int} (h : vis ⊆ vis') :
    remainingCount tids vis' ≤ remainingCount tids vis := by
  refine countP_mono_of_imp ?_
  intro a _ hp
  simp only [decide_eq_true_eq] at hp ⊢
  exact fun hv => hp (h hv)

lemma remainingCount_lt {tids vis : List Int} {node : Int}
    (hmem : node ∈ tids) (hnv : node ∉ vis) :
    remainingCount tids (node :: vis) < remainingCount tids vis := by
  refine countP_lt_of_flip hmem (by simp) (by simpa using hnv) ?_
  intro a _ hp
  simp only [decide_eq_true_eq] at hp ⊢
  exact fun hv => hp (List.mem_cons_of_mem _ hv)

lemma Inv_congr {graph : List (Int × List Int)} {tids : List Int}
    {s s' : DfsState} (h : ∀ u, finished s u ↔ finished s' u)
    (hinv : Inv graph tids s) : Inv graph tids s' := by
  obtain ⟨r, B, hB, hcl⟩ := hinv
  refine ⟨r, B, fun u hu => hB u ((h u).mpr hu), fun u hu v hv => ?_⟩
  obtain ⟨h1, h2⟩ := hcl u ((h u).mpr hu) v hv
  exact ⟨(h v).mp h1, h2⟩

lemma mem_keys_of_lookup {g : List (Int × List Int)} {x : Int} {dl : List Int}
    (h : g.lookup x = some dl) : x ∈ g.map Prod.fst := by
  induction g with
  | nil => simp [List.lookup] at h
  | cons p rest ih =>
    obtain ⟨k, v⟩ := p
    by_cases hk : k = x
    · subst hk
      simp
    · have hbeq : (x == k) = false := beq_eq_false_iff_ne.mpr (Ne.symm hk)
      simp only [List.lookup, hbeq] at h
      exact List.mem_cons_of_mem _ (ih h)

lemma mem_keys_of_lookupDeps {g : List (Int × List Int)} {x v : Int}
    (h : v ∈ lookupDeps g x) : x ∈ g.map Prod.fst := by
  simp only [lookupDeps] at h
  rcases hl : g.lookup x with _ | dl
  · rw [hl] at h
    simp at h
  · exact mem_keys_of_lookup hl

lemma dfsLoop_complete (graph : List (Int × List Int)) (tids : List Int)
    (go : Int → List Int → DfsState → DfsState) (fuel : Nat)
    (hgoR : ∀ n p s, (go n p s).recStack = s.recStack)
    (hgoV : ∀ n p s, s.visited ⊆ (go n p s).visited)
    (hgoC : ∀ n p s, ∃ t, (go n p s).cycles = s.cycles ++ t)
    (hgo : ∀ n p s, n ∈ tids → n ∉ s.visited → s.recStack ⊆ s.visited →
      remainingCount tids s.visited < fuel → Inv graph tids s →
      (go n p s).cycles = [] →
      Inv graph tids (go n p s) ∧ finished (go n p s) n ∧
      (∀ u, finished s u → finished (go n p s) u))
    (path : List Int) :
    ∀ (ns : List Int) (s : DfsState),
      s.recStack ⊆ s.visited →
      remainingCount tids s.visited < fuel →
      Inv graph tids s →
      (dfsLoop tids go path ns s).cycles = [] →
      Inv graph tids (dfsLoop tids go path ns s) ∧
      (∀ n ∈ ns, n ∈ tids → finished (dfsLoop tids go path ns s) n) ∧
      (∀ u, finished s u → finished (dfsLoop tids go path ns s) u) := by
  intro ns
  induction ns with
  | nil =>
    intro s _ _ hInv _
    exact ⟨hInv, fun n hn => absurd hn (List.not_mem_nil n), fun u hu => hu⟩
  | cons n ns ih =>
    intro s hrs hfuel hInv hcyc
    rw [dfsLoop] at hcyc ⊢
    have hcyc' : (dfsStep tids go path s n).cycles = [] := by
      rcases dfsLoop_cycles tids go hgoC path ns (dfsStep tids go path s n) with ⟨t, ht⟩
      rw [ht] at hcyc
      exact (List.append_eq_nil.mp hcyc).1
    simp only [dfsStep] at hcyc' hcyc ⊢
    split_ifs at hcyc' hcyc ⊢ with h1 h2 h3
    · -- n ∈ tids, visited, on the stack: a cycle was recorded, contradiction
      exfalso
      simp at hcyc'
    · -- n ∈ tids, visited, off the stack: n is already finished in s
      obtain ⟨hInvF, hNs, hmonoF⟩ := ih s hrs hfuel hInv hcyc
      refine ⟨hInvF, ?_, hmonoF⟩
      intro m hm hmt
      rcases List.mem_cons.mp hm with rfl | hm'
      · exact hmonoF m ⟨h2, h3⟩
      · exact hNs m hm' hmt
    · -- n ∈ tids, unvisited: recursive call
      obtain ⟨hInvX, hfinX, hmonoX⟩ :=
        hgo n path s h1 h2 hrs hfuel hInv hcyc'
      have hrsX : (go n path s).recStack ⊆ (go n path s).visited := by
        rw [hgoR]
        exact fun x hx => hgoV n path s (hrs hx)
      have hfuelX : remainingCount tids (go n path s).visited < fuel :=
        lt_of_le_of_lt (remainingCount_mono (hgoV n path s)) hfuel
      obtain ⟨hInvF, hNs, hmonoF⟩ := ih (go n path s) hrsX hfuelX hInvX hcyc
      refine ⟨hInvF, ?_, fun u hu => hmonoF u (hmonoX u hu)⟩
      intro m hm hmt
      rcases List.mem_cons.mp hm with rfl | hm'
      · exact hmonoF m hfinX
      · exact hNs m hm' hmt
    · -- n ∉ tids: skipped
      obtain ⟨hInvF, hNs, hmonoF⟩ := ih s hrs hfuel hInv hcyc
      refine ⟨hInvF, ?_, hmonoF⟩
      intro m hm hmt
      rcases List.mem_cons.mp hm with rfl | hm'
      · exact absurd hmt h1
      · exact hNs m hm' hmt

lemma dfsAux_complete (graph : List (Int × List Int)) (tids : List Int) :
    ∀ (fuel : Nat) (node : Int) (path : List Int) (s : DfsState),
      node ∈ tids → node ∉ s.visited → s.recStack ⊆ s.visited →
      remainingCount tids s.visited < fuel →
      Inv graph tids s →
      (dfsAux graph tids fuel node path s).cycles = [] →
      Inv graph tids (dfsAux graph tids fuel node path s) ∧
      finished (dfsAux graph tids fuel node path s) node ∧
      (∀ u, finished s u → finished (dfsAux graph tids fuel node path s) u) := by
  intro fuel
  induction fuel with
  | zero =>
    intro node path s _ _ _ hfuel _ _
    exact absurd hfuel (Nat.not_lt_zero _)
  | succ fuel ih =>
    intro node path s hnode hnv hrs hfuel hInv hcyc
    simp only [dfsAux] at hcyc ⊢
    have hrs1 : (node :: s.recStack) ⊆ (node :: s.visited) := by
      intro x hx
      rcases List.mem_cons.mp hx with rfl | hx'
      · exact List.mem_cons_self _ _
      · exact List.mem_cons_of_mem _ (hrs hx')
    have hfuel1 : remainingCount tids (node :: s.visited) < fuel := by
      have hlt := @remainingCount_lt tids s.visited node hnode hnv
      omega
    have hfin1 : ∀ u, finished s u ↔
        finished ⟨node :: s.visited, node :: s.recStack, s.cycles⟩ u := by
      intro u
      constructor
      · rintro ⟨huv, hur⟩
        refine ⟨List.mem_cons_of_mem _ huv, ?_⟩
        intro hmem
        rcases List.mem_cons.mp hmem with rfl | h'
        · exact hnv huv
        · exact hur h'
      · rintro ⟨huv, hur⟩
        have hne : u ≠ node := fun h => hur (h ▸ List.mem_cons_self _ _)
        rcases List.mem_cons.mp huv with rfl | h'
        · exact absurd rfl hne
        · exact ⟨h', fun hr => hur (List.mem_cons_of_mem _ hr)⟩
    have hInv1 : Inv graph tids ⟨node :: s.visited, node :: s.recStack, s.cycles⟩ :=
      Inv_congr hfin1 hInv
    obtain ⟨hInv2, hN, hmono12⟩ := dfsLoop_complete graph tids
      (dfsAux graph tids fuel) fuel
      (dfsAux_recStack graph tids fuel) (dfsAux_visited graph tids fuel)
      (dfsAux_cycles graph tids fuel) (fun n p s' => ih n p s') (path ++ [node])
      (lookupDeps graph node) ⟨node :: s.visited, node :: s.recStack, s.cycles⟩
      hrs1 hfuel1 hInv1 hcyc
    set s2 := dfsLoop tids (dfsAux graph tids fuel) (path ++ [node])
      (lookupDeps graph node) ⟨node :: s.visited, node :: s.recStack, s.cycles⟩
      with hs2
    have hrs2 : s2.recStack = node :: s.recStack := by
      rw [hs2, dfsLoop_recStack tids _ (dfsAux_recStack graph tids fuel)]
    have hvis2 : (node :: s.visited) ⊆ s2.visited := by
      rw [hs2]
      exact dfsLoop_visited tids _ (dfsAux_visited graph tids fuel)
        (path ++ [node]) (lookupDeps graph node)
        ⟨node :: s.visited, node :: s.recStack, s.cycles⟩
    have hnodev2 : node ∈ s2.visited := hvis2 (List.mem_cons_self _ _)
    have hnodenrs : node ∉ s.recStack := fun h => hnv (hrs h)
    have herase : s2.recStack.erase node = s.recStack := by
      rw [hrs2]
      exact List.erase_cons_head _ _
    have hnotfin2 : ¬ finished s2 node := by
      rintro ⟨_, hnr⟩
      rw [hrs2] at hnr
      exact hnr (List.mem_cons_self _ _)
    have hfin2f : ∀ u, finished s2 u →
        finished ⟨s2.visited, s2.recStack.erase node, s2.cycles⟩ u := by
      rintro u ⟨huv, hur⟩
      refine ⟨huv, ?_⟩
      rw [herase]
      intro hc
      rw [hrs2] at hur
      exact hur (List.mem_cons_of_mem _ hc)
    have hfinback : ∀ u, u ≠ node →
        finished ⟨s2.visited, s2.recStack.erase node, s2.cycles⟩ u →
        finished s2 u := by
      rintro u hne ⟨huv, hur⟩
      rw [herase] at hur
      refine ⟨huv, ?_⟩
      rw [hrs2]
      intro hc
      rcases List.mem_cons.mp hc with rfl | hc'
      · exact hne rfl
      · exact hur hc'
    refine ⟨?_, ⟨hnodev2, by rw [herase] at *; exact herase ▸ hnodenrs⟩, ?_⟩
    · obtain ⟨r, B, hB, hcl⟩ := hInv2
      refine ⟨fun u => if u = node then B else r u, B + 1, ?_, ?_⟩
      · intro u hu
        by_cases hun : u = node
        · simp [hun]
        · simp only []
          rw [if_neg hun]
          exact Nat.lt_succ_of_lt (hB u (hfinback u hun hu))
      · intro u hu v hedge
        by_cases hun : u = node
        · subst hun
          obtain ⟨_, hvt, hvdeps⟩ := hedge
          have hfin2v : finished s2 v := hN v hvdeps hvt
          have hvne : v ≠ u := fun h => hnotfin2 (h ▸ hfin2v)
          refine ⟨hfin2f v hfin2v, ?_⟩
          simp only []
          rw [if_neg hvne]
          simpa using hB v hfin2v
        · have hfin2u : finished s2 u := hfinback u hun hu
          obtain ⟨hfv, hrv⟩ := hcl u hfin2u v hedge
          have hvne : v ≠ node := fun h => hnotfin2 (h ▸ hfv)
          refine ⟨hfin2f v hfv, ?_⟩
          simp only []
          rw [if_neg hvne, if_neg hun]
          exact hrv
    · intro u hu
      exact hfin2f u (hmono12 u ((hfin1 u).mp hu))

lemma fold_cycles (graph : List (Int × List Int)) (tids : List Int) (fuel : Nat) :
    ∀ (l : List (Int × List Int)) (s : DfsState),
      ∃ t, (l.foldl (fun s p =>
          if p.1 ∉ s.visited then dfsAux graph tids fuel p.1 [] s else s) s).cycles =
        s.cycles ++ t := by
  intro l
  induction l with
  | nil => intro s; exact ⟨[], by simp⟩
  | cons p l ih =>
    intro s
    simp only [List.foldl_cons]
    by_cases hv : p.1 ∉ s.visited
    · rw [if_pos hv]
      rcases dfsAux_cycles graph tids fuel p.1 [] s with ⟨t1, h1⟩
      rcases ih (dfsAux graph tids fuel p.1 [] s) with ⟨t2, h2⟩
      exact ⟨t1 ++ t2, by rw [h2, h1, List.append_assoc]⟩
    · rw [if_neg hv]
      exact ih s

lemma detect_fold_complete (graph : List (Int × List Int)) (tids : List Int)
    (fuel : Nat) :
    ∀ (l : List (Int × List Int)) (s : DfsState),
      (∀ p ∈ l, p.1 ∈ tids) →
      s.recStack = [] →
      remainingCount tids s.visited < fuel →
      Inv graph tids s →
      (l.foldl (fun s p =>
          if p.1 ∉ s.visited then dfsAux graph tids fuel p.1 [] s else s) s).cycles = [] →
      Inv graph tids (l.foldl (fun s p =>
          if p.1 ∉ s.visited then dfsAux graph tids fuel p.1 [] s else s) s) ∧
      (∀ p ∈ l, p.1 ∈ (l.foldl (fun s p =>
          if p.1 ∉ s.visited then dfsAux graph tids fuel p.1 [] s else s) s).visited) ∧
      s.visited ⊆ (l.foldl (fun s p =>
          if p.1 ∉ s.visited then dfsAux graph tids fuel p.1 [] s else s) s).visited ∧
      (l.foldl (fun s p =>
          if p.1 ∉ s.visited then dfsAux graph tids fuel p.1 [] s else s) s).recStack = [] := by
  intro l
  induction l with
  | nil =>
    intro s _ hrs _ hInv _
    exact ⟨hInv, fun p hp => absurd hp (List.not_mem_nil p), fun a ha => ha, hrs⟩
  | cons p l ih =>
    intro s hmem hrs hfuel hInv hcyc
    simp only [List.foldl_cons] at hcyc ⊢
    by_cases hv : p.1 ∉ s.visited
    · rw [if_pos hv] at hcyc ⊢
      have hcyc1 : (dfsAux graph tids fuel p.1 [] s).cycles = [] := by
        rcases fold_cycles graph tids fuel l (dfsAux graph tids fuel p.1 [] s) with ⟨t, ht⟩
        rw [ht] at hcyc
        exact (List.append_eq_nil.mp hcyc).1
      obtain ⟨hInv1, hfin1, _⟩ := dfsAux_complete graph tids fuel p.1 [] s
        (hmem p (List.mem_cons_self _ _)) hv
        (by rw [hrs]; exact List.nil_subset _) hfuel hInv hcyc1
      have hrs1 : (dfsAux graph tids fuel p.1 [] s).recStack = [] := by
        rw [dfsAux_recStack]
        exact hrs
      have hfuel1 : remainingCount tids (dfsAux graph tids fuel p.1 [] s).visited < fuel :=
        lt_of_le_of_lt (remainingCount_mono (dfsAux_visited graph tids fuel p.1 [] s)) hfuel
      obtain ⟨hInvF, hkeysF, hvisF, hrsF⟩ := ih _
        (fun q hq => hmem q (List.mem_cons_of_mem _ hq)) hrs1 hfuel1 hInv1 hcyc
      refine ⟨hInvF, ?_,
        fun a ha => hvisF (dfsAux_visited graph tids fuel p.1 [] s ha), hrsF⟩
      intro q hq
      rcases List.mem_cons.mp hq with rfl | hq'
      · exact hvisF hfin1.1
      · exact hkeysF q hq'
    · rw [if_neg hv] at hcyc ⊢
      obtain ⟨hInvF, hkeysF, hvisF, hrsF⟩ := ih s
        (fun q hq => hmem q (List.mem_cons_of_mem _ hq)) hrs hfuel hInv hcyc
      refine ⟨hInvF, ?_, hvisF, hrsF⟩
      intro q hq
      rcases List.mem_cons.mp hq with rfl | hq'
      · exact hvisF (not_not.mp hv)
      · exact hkeysF q hq'

lemma detect_complete {tasks : List Task}
    (h : detect_circular_dependencies tasks = []) : ¬ HasCycle tasks := by
  simp only [detect_circular_dependencies] at h
  have hfuel0 : remainingCount (taskIdsOf tasks)
      (DfsState.mk [] [] [] : DfsState).visited < tasks.length + 1 := by
    have h1 : remainingCount (taskIdsOf tasks) [] ≤ (taskIdsOf tasks).length :=
      List.countP_le_length _
    have h2 : (taskIdsOf tasks).length ≤ tasks.length :=
      List.length_filterMap_le _ _
    simpa using lt_of_le_of_lt (le_trans h1 h2) (Nat.lt_succ_self _)
  have hinv0 : Inv (buildGraph tasks) (taskIdsOf tasks) ⟨[], [], []⟩ :=
    ⟨fun _ => 0, 1, fun u hu => absurd hu.1 (List.not_mem_nil u),
      fun u hu => absurd hu.1 (List.not_mem_nil u)⟩
  obtain ⟨hInvF, hkeysF, _, hrsF⟩ := detect_fold_complete (buildGraph tasks)
    (taskIdsOf tasks) (tasks.length + 1) (buildGraph tasks) ⟨[], [], []⟩
    (fun p hp => buildGraph_keys hp) rfl hfuel0 hinv0 h
  rintro ⟨u, hTG⟩
  obtain ⟨r, B, hB, hcl⟩ := hInvF
  have hTG' : Relation.TransGen (EdgeG (buildGraph tasks) (taskIdsOf tasks)) u u := hTG
  have hfinsrc : ∀ x y : Int, EdgeG (buildGraph tasks) (taskIdsOf tasks) x y →
      finished ((buildGraph tasks).foldl (fun s p =>
        if p.1 ∉ s.visited then
          dfsAux (buildGraph tasks) (taskIdsOf tasks) (tasks.length + 1) p.1 [] s
        else s) ⟨[], [], []⟩) x := by
    rintro x y ⟨hxt, hyt, hdeps⟩
    have hxkeys : x ∈ (buildGraph tasks).map Prod.fst := mem_keys_of_lookupDeps hdeps
    rcases List.mem_map.mp hxkeys with ⟨p, hp, rfl⟩
    refine ⟨hkeysF p hp, ?_⟩
    rw [hrsF]
    exact List.not_mem_nil _
  have hrank : ∀ x y : Int,
      Relation.TransGen (EdgeG (buildGraph tasks) (taskIdsOf tasks)) x y →
      finished ((buildGraph tasks).foldl (fun s p =>
        if p.1 ∉ s.visited then
          dfsAux (buildGraph tasks) (taskIdsOf tasks) (tasks.length + 1) p.1 [] s
        else s) ⟨[], [], []⟩) x →
      finished ((buildGraph tasks).foldl (fun s p =>
        if p.1 ∉ s.visited then
          dfsAux (buildGraph tasks) (taskIdsOf tasks) (tasks.length + 1) p.1 [] s
        else s) ⟨[], [], []⟩) y ∧ r y < r x := by
    intro x y hxy
    induction hxy with
    | single e => intro hx; exact hcl _ hx _ e
    | tail hab e ih2 =>
      intro hx
      obtain ⟨hfb, hrb⟩ := ih2 hx
      obtain ⟨hfc, hrc⟩ := hcl _ hfb _ e
      exact ⟨hfc, hrc.trans hrb⟩
  rcases Relation.TransGen.head'_iff.mp hTG' with ⟨b, e, _⟩
  obtain ⟨_, hlt⟩ := hrank u u hTG' (hfinsrc u b e)
  omega

/-- C2: on any task list with pairwise-distinct ids,
`detect_circular_dependencies` reports a non-empty list exactly when the
dependency graph restricted to the present ids has a directed cycle; a
self-loop yields the length-1 cycle `[id, id]`, the 2-cycle `1 -> 2 -> 1`
yields a non-empty cycle, and the chain `1, 2 -> 1, 3 -> 2` yields nothing. -/
theorem detect_cycles_iff :
    (∀ tasks : List Task, (taskIdsOf tasks).Nodup →
      (detect_circular_dependencies tasks ≠ [] ↔ HasCycle tasks)) ∧
    detect_circular_dependencies [{ task_id := some 1, dependencies := [1] }] = [[1, 1]] ∧
    (∃ c ∈ detect_circular_dependencies
      [{ task_id := some 1, dependencies := [2] },
       { task_id := some 2, dependencies := [1] }], c ≠ []) ∧
    detect_circular_dependencies
      [{ task_id := some 1 }, { task_id := some 2, dependencies := [1] },
       { task_id := some 3, dependencies := [2] }] = [] := by
  refine ⟨?_, by decide, ⟨[1, 2, 1], by decide, by decide⟩, by decide⟩
  intro tasks hnodup
  constructor
  · exact fun h => detect_sound h
  · intro hcyc hdet
    exact detect_complete hdet hcyc

/-- C2 witness: the equivalence instantiated on the concrete 2-cycle. -/
theorem detect_cycles_iff_witness :
    (taskIdsOf [{ task_id := some 1, dependencies := [2] },
      { task_id := some 2, dependencies := [1] }]).Nodup ∧
    (detect_circular_dependencies [{ task_id := some 1, dependencies := [2] },
        { task_id := some 2, dependencies := [1] }] ≠ [] ↔
      HasCycle [{ task_id := some 1, dependencies := [2] },
        { task_id := some 2, dependencies := [1] }]) :=
  ⟨by decide, detect_cycles_iff.1 _ (by decide)⟩

end TaskScoring
